import Mathlib

/-!
Shallow embedding of the ant-colony simulation core of `dualcore/ants.py`:
the `Colony` class with its operations `__init__` (called `create`, following
the specification), `return_to_nest`, `explore` and `advance`.

The per-ant parallel numpy arrays are embedded as functions from the ant
index.  All integer arrays (`int64`, `int32`, `int16`) stay far inside their
machine ranges in every operation modelled here (seeds stay below
2147483647, ages and positions are small), so they are embedded as `ℕ`/`ℤ`.
Pheromone levels (float64) are embedded as `ℚ`.  The float expression
computing `max_life` (`np.int32(max_life*(seeds/2147483647.))//4`) is
embedded with exact natural division: for the value ranges of the program
(`max_life*seeds < 2^53`) the float64 rounding error is several orders of
magnitude smaller than the distance from the exact rational to the nearest
integer it could cross, so truncation of the float agrees with the exact
floor, and `⌊⌊x⌋/4⌋ = ⌊x/4⌋` for nonnegative `x`.

The maze and pheromone collaborators (files `maze.py` and `pheromone.py`,
not part of the sources) enter only through the interface that `ants.py`
uses: per-cell open-exit booleans and a padded pheromone grid read at
explicit ghost-cell offsets; they are taken as function parameters.
-/

namespace Ants

/-- Linear congruential seed update `seed = (16807 * seed) mod 2147483647`
(lines 36, 88 and 134 of `ants.py`). -/
def lcg (s : ℕ) : ℕ := 16807 * s % 2147483647

/-- Module-level constant `exploration_coefs = 0.` (line 17 of `ants.py`). -/
def exploration_coefs : ℚ := 0

/-- Modelled from the spec: the repository's `direction` module is not under
`src/`.  The spec (§3, §25) fixes the direction values NONE/N/E/S/W, and the
code's reversal map `3 - d` (line 152) together with the shift code
(lines 139-146) forces North/South and East/West to pair up summing to 3;
NONE is a value never drawn by `seed mod 4`. -/
def DIR_NONE : ℤ := -1

/-- Direction value for a move one row up (modelled from the spec, see
`DIR_NONE`). -/
def DIR_NORTH : ℤ := 0

/-- Direction value for a move one column right (modelled from the spec). -/
def DIR_EAST : ℤ := 1

/-- Direction value for a move one column left (modelled from the spec). -/
def DIR_WEST : ℤ := 2

/-- Direction value for a move one row down (modelled from the spec). -/
def DIR_SOUTH : ℤ := 3

/-- Open exits of one maze cell.  `ants.py` (lines 92-95) reduces the maze's
bitmask representation to exactly these four booleans; the maze itself is an
external collaborator, specified by the interface
`exits(row, col) → {north, east, south, west}` (spec §6). -/
structure Exits where
  north : Bool
  east : Bool
  south : Bool
  west : Bool
deriving DecidableEq

/-- The vectorized ant-population state of the `Colony` class
(`ants.py`, lines 29-47): parallel arrays indexed by ant id, embedded as
functions from the ant index.  `n` is the population size and `maxLifeCfg`
the configured maximal life (the second dimension of `historic_path` is
`maxLifeCfg + 1` in the code; positions recorded there are embedded as a
total function on `ℤ` indices). -/
structure Colony where
  n : ℕ
  maxLifeCfg : ℕ
  seeds : ℕ → ℕ
  is_loaded : ℕ → Bool
  max_life : ℕ → ℕ
  age : ℕ → ℤ
  historic_path : ℕ → ℤ → ℤ × ℤ
  directions : ℕ → ℤ

/-- `Colony.__init__` (lines 29-47): seeds `1..n` advanced one `lcg` step,
everyone unloaded at age 0 sitting at `posInit` with direction NONE, and
`max_life` drawn once from the fresh seed
(`max_life - np.int32(max_life*(seeds/2147483647.))//4`, embedded with exact
division as justified in the header). -/
def create (nbAnts : ℕ) (posInit : ℤ × ℤ) (maxLifeCfg : ℕ) : Colony where
  n := nbAnts
  maxLifeCfg := maxLifeCfg
  seeds := fun i => lcg (i + 1)
  is_loaded := fun _ => false
  max_life := fun i => maxLifeCfg - maxLifeCfg * lcg (i + 1) / 2147483647 / 4
  age := fun _ => 0
  historic_path := fun _ => Function.update (fun _ => ((0 : ℤ), (0 : ℤ))) 0 posInit
  directions := fun _ => DIR_NONE

/-- `Colony.return_to_nest` (lines 50-71).  `loaded` is the index set passed
as `loaded_ants`; ages of those ants drop by one, the ants among them whose
recorded position at the new age is the nest unload and reset to age 0, and
the food counter grows by the number of such arrivals. -/
def return_to_nest (c : Colony) (loaded : ℕ → Bool) (posNest : ℤ × ℤ)
    (food_counter : ℕ) : Colony × ℕ :=
  let age1 : ℕ → ℤ := fun i => if loaded i then c.age i - 1 else c.age i
  let inNest : ℕ → Bool := fun i =>
    loaded i && decide (c.historic_path i (age1 i) = posNest)
  ({ c with
      age := fun i => if inNest i then 0 else age1 i
      is_loaded := fun i => if inNest i then false else c.is_loaded i },
    food_counter + ((List.range c.n).filter fun i => inNest i).length)

/-- Step (a) of the explore pass (line 88): the seed update
`self.seeds[unloaded_ants] = np.mod(16807*self.seeds[unloaded_ants], 2147483647)`,
which advances exactly the seeds of the index set `unloaded_ants`. -/
def exploreSeedsA (seeds : ℕ → ℕ) (unloaded : ℕ → Bool) : ℕ → ℕ :=
  fun i => if unloaded i then lcg (seeds i) else seeds i

/-- The ant's current cell `historic_path[i, age[i]]` (line 91). -/
def antPos (c : Colony) (i : ℕ) : ℤ × ℤ := c.historic_path i (c.age i)

/-- Pheromone read north of cell `p`: the code (lines 98-100) reads the
padded grid at offset `(+0, +1)` and zeroes the value when the north exit is
closed (multiplication by the exit boolean). -/
def northPher (exits : ℤ × ℤ → Exits) (pher : ℤ × ℤ → ℚ) (p : ℤ × ℤ) : ℚ :=
  if (exits p).north then pher (p.1, p.2 + 1) else 0

/-- Pheromone read east of cell `p` (lines 102-105, offset `(+1, +2)`). -/
def eastPher (exits : ℤ × ℤ → Exits) (pher : ℤ × ℤ → ℚ) (p : ℤ × ℤ) : ℚ :=
  if (exits p).east then pher (p.1 + 1, p.2 + 2) else 0

/-- Pheromone read south of cell `p` (lines 107-110, offset `(+2, +1)`). -/
def southPher (exits : ℤ × ℤ → Exits) (pher : ℤ × ℤ → ℚ) (p : ℤ × ℤ) : ℚ :=
  if (exits p).south then pher (p.1 + 2, p.2 + 1) else 0

/-- Pheromone read west of cell `p` (lines 112-114, offset `(+1, +0)`). -/
def westPher (exits : ℤ × ℤ → Exits) (pher : ℤ × ℤ → ℚ) (p : ℤ × ℤ) : ℚ :=
  if (exits p).west then pher (p.1 + 1, p.2) else 0

/-- `max_pheromones` (lines 116-118): maximum of the four neighbour reads,
folded in the code's order north/east, then south, then west. -/
def maxPher (exits : ℤ × ℤ → Exits) (pher : ℤ × ℤ → ℚ) (p : ℤ × ℤ) : ℚ :=
  max (max (max (northPher exits pher p) (eastPher exits pher p))
    (southPher exits pher p)) (westPher exits pher p)

/-- `choices = seeds / 2147483647.` (line 121). -/
def choiceValue (s : ℕ) : ℚ := (s : ℚ) / 2147483647

/-- The branch condition of line 125: an ant explores when its choice value
is at most `exploration_coefs` or no neighbouring pheromone is positive. -/
def exploringCond (ch mp : ℚ) : Prop := ch ≤ exploration_coefs ∨ mp = 0

instance (ch mp : ℚ) : Decidable (exploringCond ch mp) := by
  unfold exploringCond; infer_instance

/-- The branch condition of lines 159-160: an ant follows the pheromone
gradient when its choice value exceeds `exploration_coefs` and some
neighbouring pheromone is positive. -/
def followingCond (ch mp : ℚ) : Prop := exploration_coefs < ch ∧ 0 < mp

instance (ch mp : ℚ) : Decidable (followingCond ch mp) := by
  unfold followingCond; infer_instance

/-- Membership of ant `i` in `ind_exploring_ants` (lines 124-127): unloaded
and satisfying the exploring branch condition on the choice value drawn from
the step-(a) seed and the maximal neighbour pheromone of its current cell. -/
def exploringSet (c : Colony) (unloaded : ℕ → Bool) (exits : ℤ × ℤ → Exits)
    (pher : ℤ × ℤ → ℚ) : ℕ → Bool := fun i =>
  unloaded i && decide (exploringCond (choiceValue (exploreSeedsA c.seeds unloaded i))
    (maxPher exits pher (antPos c i)))

/-- Membership of ant `i` in `ind_following_ants` (lines 159-162). -/
def followingSet (c : Colony) (unloaded : ℕ → Bool) (exits : ℤ × ℤ → Exits)
    (pher : ℤ × ℤ → ℚ) : ℕ → Bool := fun i =>
  unloaded i && decide (followingCond (choiceValue (exploreSeedsA c.seeds unloaded i))
    (maxPher exits pher (antPos c i)))

/-- `nb_exits` (lines 129-130): the number of open exits of a cell. -/
def nbExits (e : Exits) : ℕ :=
  (cond e.north 1 0) + (cond e.east 1 0) + (cond e.south 1 0) + (cond e.west 1 0)

/-- The direction drawn from a seed, `dir = np.mod(seeds, 4)` (line 136). -/
def drawnDir (s : ℕ) : ℤ := ((s % 4 : ℕ) : ℤ)

/-- `new_pos` of the retry loop (lines 138-146): starting from the old
position, shift one column left/right when the drawn direction is West/East
and that exit is open, and one row up/down when it is North/South and that
exit is open. -/
def stepNewPos (p : ℤ × ℤ) (e : Exits) (dir : ℤ) : ℤ × ℤ :=
  (p.1 - (if dir = DIR_NORTH ∧ e.north = true then 1 else 0)
      + (if dir = DIR_SOUTH ∧ e.south = true then 1 else 0),
    p.2 - (if dir = DIR_WEST ∧ e.west = true then 1 else 0)
      + (if dir = DIR_EAST ∧ e.east = true then 1 else 0))

/-- The validity predicate of the retry loop (lines 148-152): the move must
change the cell, and must not reverse the previous direction (`3 - prev`)
unless the cell has exactly one open exit. -/
def moveOk (oldp newp : ℤ × ℤ) (dir prevDir : ℤ) (nb : ℕ) : Prop :=
  newp ≠ oldp ∧ (dir ≠ 3 - prevDir ∨ nb = 1)

instance (oldp newp : ℤ × ℤ) (dir prevDir : ℤ) (nb : ℕ) :
    Decidable (moveOk oldp newp dir prevDir nb) := by
  unfold moveOk; infer_instance

/-- The state mutated by the retry loop of `explore`: the seed array, the
path history, the direction array and the `valid_moves` flags. -/
structure RetrySt where
  seeds : ℕ → ℕ
  path : ℕ → ℤ → ℤ × ℤ
  dirs : ℕ → ℤ
  valid : ℕ → Bool

/-- One iteration of the retry loop body (lines 131-157): every ant's seed
advances (line 134, `self.seeds[:]`), and each still-unresolved exploring
ant draws a direction, computes its tentative move from its current cell
(read from the live path history at its age) and the pre-loop exit flags,
records the validity verdict, and commits position (at index `age + 1`) and
direction when the verdict is positive. -/
def retryStep (age : ℕ → ℤ) (exA : ℕ → Exits) (exploring : ℕ → Bool)
    (st : RetrySt) : RetrySt :=
  let unresolved : ℕ → Bool := fun i => exploring i && !st.valid i
  let seeds2 : ℕ → ℕ := fun i => lcg (st.seeds i)
  let dir : ℕ → ℤ := fun i => drawnDir (seeds2 i)
  let oldP : ℕ → ℤ × ℤ := fun i => st.path i (age i)
  let newP : ℕ → ℤ × ℤ := fun i => stepNewPos (oldP i) (exA i) (dir i)
  let ok : ℕ → Bool := fun i =>
    decide (moveOk (oldP i) (newP i) (dir i) (st.dirs i) (nbExits (exA i)))
  { seeds := seeds2
    valid := fun i => if unresolved i then ok i else st.valid i
    path := fun i => if unresolved i && ok i then
        Function.update (st.path i) (age i + 1) (newP i)
      else st.path i
    dirs := fun i => if unresolved i && ok i then dir i else st.dirs i }

/-- The `while` guard of line 131: some exploring ant still lacks a valid
move. -/
def anyUnresolved (n : ℕ) (exploring : ℕ → Bool) (st : RetrySt) : Bool :=
  (List.range n).any fun i => exploring i && !st.valid i

/-- The retry loop (lines 131-157), with explicit fuel: as long as some
exploring ant lacks a valid move, run one `retryStep`; `none` when the fuel
runs out before every exploring ant is resolved. -/
def retryLoop (n : ℕ) (age : ℕ → ℤ) (exA : ℕ → Exits) (exploring : ℕ → Bool) :
    ℕ → RetrySt → Option RetrySt
  | 0, st => if anyUnresolved n exploring st then none else some st
  | fuel + 1, st =>
    if anyUnresolved n exploring st then
      retryLoop n age exA exploring fuel (retryStep age exA exploring st)
    else some st

/-- The exit flags of each ant's current cell, computed once before the
retry loop (lines 91-95). -/
def exAt (c : Colony) (exits : ℤ × ℤ → Exits) : ℕ → Exits :=
  fun i => exits (antPos c i)

/-- The retry-loop state as initialised by `explore`: step-(a) seeds, the
live path history and directions, and all-zero `valid_moves` (line 128). -/
def exploreInit (c : Colony) (unloaded : ℕ → Bool) : RetrySt where
  seeds := exploreSeedsA c.seeds unloaded
  path := c.historic_path
  dirs := c.directions
  valid := fun _ => false

/-- The position written for a following ant (lines 163-174): a copy of the
current position whose column grows by one for an east read attaining the
maximum and shrinks by one for a west read attaining it, and whose row
shrinks by one for a north read attaining the maximum and grows by one for a
south read attaining it. -/
def followNewPos (p : ℤ × ℤ) (phN phE phS phW mp : ℚ) : ℤ × ℤ :=
  (p.1 - (if phN = mp then 1 else 0) + (if phS = mp then 1 else 0),
    p.2 + (if phE = mp then 1 else 0) - (if phW = mp then 1 else 0))

/-- The path history after the following ants wrote their gradient move at
index `age + 1` (lines 159-174). -/
def postPath2 (c : Colony) (unloaded : ℕ → Bool) (exits : ℤ × ℤ → Exits)
    (pher : ℤ × ℤ → ℚ) (st1 : RetrySt) : ℕ → ℤ → ℤ × ℤ := fun i =>
  if followingSet c unloaded exits pher i then
    Function.update (st1.path i) (c.age i + 1)
      (followNewPos (st1.path i (c.age i))
        (northPher exits pher (antPos c i)) (eastPher exits pher (antPos c i))
        (southPher exits pher (antPos c i)) (westPher exits pher (antPos c i))
        (maxPher exits pher (antPos c i)))
  else st1.path i

/-- The ages after every ant of the `unloaded` index set aged by one
(lines 176-178). -/
def postAge2 (c : Colony) (unloaded : ℕ → Bool) : ℕ → ℤ := fun i =>
  if unloaded i then c.age i + 1 else c.age i

/-- `ind_dying_ants` (line 181): the ants whose age now equals their
`max_life`. -/
def postDying (c : Colony) (unloaded : ℕ → Bool) : ℕ → Bool := fun i =>
  decide (postAge2 c unloaded i = (c.max_life i : ℤ))

/-- The ages after the dying ants reset to 0 (line 183). -/
def postAge3 (c : Colony) (unloaded : ℕ → Bool) : ℕ → ℤ := fun i =>
  if postDying c unloaded i then 0 else postAge2 c unloaded i

/-- The path history after the dying ants' position at index 0 reset to the
nest (lines 184-185). -/
def postPath3 (c : Colony) (unloaded : ℕ → Bool) (exits : ℤ × ℤ → Exits)
    (pher : ℤ × ℤ → ℚ) (posNest : ℤ × ℤ) (st1 : RetrySt) : ℕ → ℤ → ℤ × ℤ :=
  fun i =>
  if postDying c unloaded i then
    Function.update (postPath2 c unloaded exits pher st1 i) 0 posNest
  else postPath2 c unloaded exits pher st1 i

/-- The directions after the dying ants reset to NONE (line 186). -/
def postDirs3 (c : Colony) (unloaded : ℕ → Bool) (st1 : RetrySt) : ℕ → ℤ :=
  fun i => if postDying c unloaded i then DIR_NONE else st1.dirs i

/-- The load flags after the unloaded ants standing on the food cell (at
their post-death age and path) load up (lines 188-193). -/
def postLoaded3 (c : Colony) (unloaded : ℕ → Bool) (exits : ℤ × ℤ → Exits)
    (pher : ℤ × ℤ → ℚ) (posFood posNest : ℤ × ℤ) (st1 : RetrySt) : ℕ → Bool :=
  fun i =>
  if unloaded i && decide (postPath3 c unloaded exits pher posNest st1 i
      (postAge3 c unloaded i) = posFood) then true
  else c.is_loaded i

/-- The tail of `explore` after the retry loop has produced the state `st1`
(lines 159-193): following ants write their gradient move at `age + 1`,
every ant of the `unloaded` index set ages by one, ants whose age reaches
their `max_life` reset to age 0 at the nest with direction NONE, and
unloaded ants standing on the food cell load up. -/
def explorePost (c : Colony) (unloaded : ℕ → Bool) (exits : ℤ × ℤ → Exits)
    (pher : ℤ × ℤ → ℚ) (posFood posNest : ℤ × ℤ) (st1 : RetrySt) : Colony :=
  { c with
      seeds := st1.seeds
      historic_path := postPath3 c unloaded exits pher posNest st1
      age := postAge3 c unloaded
      directions := postDirs3 c unloaded st1
      is_loaded := postLoaded3 c unloaded exits pher posFood posNest st1 }

/-- `Colony.explore` (lines 73-193): step-(a) seed advance for the
`unloaded` index set, branch selection from the choice values and the
neighbour pheromone maxima, the retry loop for exploring ants (with fuel),
and the post-loop updates of `explorePost`. -/
def explore (c : Colony) (unloaded : ℕ → Bool) (exits : ℤ × ℤ → Exits)
    (pher : ℤ × ℤ → ℚ) (posFood posNest : ℤ × ℤ) (fuel : ℕ) : Option Colony :=
  match retryLoop c.n c.age (exAt c exits) (exploringSet c unloaded exits pher)
      fuel (exploreInit c unloaded) with
  | none => none
  | some st1 => some (explorePost c unloaded exits pher posFood posNest st1)

/-- The return-pass half of `Colony.advance` (lines 196-199): when some ant
is loaded, the loaded ants (the index set computed at the start of the tick)
walk one step home via `return_to_nest`.  The closing pheromone deposit of
`advance` (lines 203-210) only calls `pheromones.mark` on the external field
and leaves the colony state untouched, so it has no counterpart here. -/
def advanceReturn (c : Colony) (posNest : ℤ × ℤ) (food_counter : ℕ) :
    Colony × ℕ :=
  if (List.range c.n).any (fun i => c.is_loaded i) then
    return_to_nest c c.is_loaded posNest food_counter
  else (c, food_counter)

/-- `Colony.advance`, continued: the explore pass runs on the state left by
the return pass, over the index set of ants unloaded at the start of the
tick (both index sets of lines 196-197 are computed before the return
pass). -/
def advance (c : Colony) (exits : ℤ × ℤ → Exits) (pher : ℤ × ℤ → ℚ)
    (posFood posNest : ℤ × ℤ) (fuel : ℕ) (food_counter : ℕ) :
    Option (Colony × ℕ) :=
  if (List.range c.n).any (fun i => !c.is_loaded i) then
    match explore (advanceReturn c posNest food_counter).1
        (fun i => !c.is_loaded i) exits pher posFood posNest fuel with
    | none => none
    | some c2 => some (c2, (advanceReturn c posNest food_counter).2)
  else some (advanceReturn c posNest food_counter)

/-! ### Basic facts about the seed recurrence -/

/-- Bezout witness for the invertibility of the multiplier 16807 modulo
2147483647. -/
lemma lcg_bezout : 16807 * 1407677000 = 11017 * 2147483647 + 1 := by norm_num

/-- The recurrence keeps a nonzero seed below the modulus nonzero: zero is a
fixed point, and no nonzero residue is sent to it. -/
lemma lcg_pos {s : ℕ} (h1 : 0 < s) (h2 : s < 2147483647) :
    0 < lcg s ∧ lcg s < 2147483647 := by
  refine ⟨?_, Nat.mod_lt _ (by norm_num)⟩
  rcases Nat.eq_zero_or_pos (lcg s) with h | h
  swap
  · exact h
  · exfalso
    have hdvd : 2147483647 ∣ 16807 * s := Nat.dvd_of_mod_eq_zero h
    have hdvd2 : 2147483647 ∣ 1407677000 * (16807 * s) := hdvd.mul_left _
    have hrw : 1407677000 * (16807 * s) = 11017 * 2147483647 * s + s := by
      calc 1407677000 * (16807 * s) = (16807 * 1407677000) * s := by ring
        _ = (11017 * 2147483647 + 1) * s := by rw [lcg_bezout]
        _ = 11017 * 2147483647 * s + s := by ring
    have hdvd3 : 2147483647 ∣ 11017 * 2147483647 * s :=
      ⟨11017 * s, by ring⟩
    have hs : 2147483647 ∣ s := by
      have := hrw ▸ hdvd2
      exact (Nat.dvd_add_right hdvd3).mp this
    have := Nat.le_of_dvd h1 hs
    omega

/-! ### Frame lemmas for the retry loop -/

/-- One retry iteration advances every seed, and touches the path,
direction and validity entries only of unresolved exploring ants. -/
lemma retryStep_frame (age : ℕ → ℤ) (exA : ℕ → Exits) (exploring : ℕ → Bool)
    (st : RetrySt) (i : ℕ) :
    (retryStep age exA exploring st).seeds i = lcg (st.seeds i) ∧
    ((exploring i && !st.valid i) = false →
      (retryStep age exA exploring st).path i = st.path i ∧
      (retryStep age exA exploring st).dirs i = st.dirs i ∧
      (retryStep age exA exploring st).valid i = st.valid i) := by
  refine ⟨rfl, fun h => ?_⟩
  have h2 : (exploring i && !st.valid i) = false := h
  simp only [retryStep, h2, Bool.false_and, if_neg (Bool.false_ne_true),
    Bool.false_eq_true, if_false, and_self]

/-- One retry iteration never changes a path entry at a nonpositive index
(its single write lands at `age + 1` with `age ≥ 0`). -/
lemma retryStep_path_lo (age : ℕ → ℤ) (exA : ℕ → Exits) (exploring : ℕ → Bool)
    (st : RetrySt) (i : ℕ) (j : ℤ) (hj : j ≤ age i) :
    (retryStep age exA exploring st).path i j = st.path i j := by
  simp only [retryStep]
  split
  · exact Function.update_noteq (by omega) _ _
  · rfl

/-- The retry loop advances each seed once per iteration; in particular a
seed satisfying the positivity invariant keeps satisfying it. -/
lemma retryLoop_seeds_inv (n : ℕ) (age : ℕ → ℤ) (exA : ℕ → Exits)
    (exploring : ℕ → Bool) (fuel : ℕ) (st st' : RetrySt)
    (h : retryLoop n age exA exploring fuel st = some st') (i : ℕ)
    (hs : 0 < st.seeds i ∧ st.seeds i < 2147483647) :
    0 < st'.seeds i ∧ st'.seeds i < 2147483647 := by
  induction fuel generalizing st with
  | zero =>
    simp only [retryLoop] at h
    split at h
    · exact absurd h (by simp)
    · cases h; exact hs
  | succ fuel ih =>
    simp only [retryLoop] at h
    split at h
    · refine ih (retryStep age exA exploring st) h ?_
      rw [(retryStep_frame age exA exploring st i).1]
      exact lcg_pos hs.1 hs.2
    · cases h; exact hs

/-- The retry loop leaves the path and direction of every non-exploring ant
unchanged. -/
lemma retryLoop_frame (n : ℕ) (age : ℕ → ℤ) (exA : ℕ → Exits)
    (exploring : ℕ → Bool) (fuel : ℕ) (st st' : RetrySt)
    (h : retryLoop n age exA exploring fuel st = some st') (i : ℕ)
    (hi : exploring i = false) :
    st'.path i = st.path i ∧ st'.dirs i = st.dirs i := by
  induction fuel generalizing st with
  | zero =>
    simp only [retryLoop] at h
    split at h
    · exact absurd h (by simp)
    · cases h; exact ⟨rfl, rfl⟩
  | succ fuel ih =>
    simp only [retryLoop] at h
    split at h
    · have hfr := (retryStep_frame age exA exploring st i).2 (by simp [hi])
      have := ih (retryStep age exA exploring st) h
      exact ⟨this.1.trans hfr.1, this.2.trans hfr.2.1⟩
    · cases h; exact ⟨rfl, rfl⟩

/-- The retry loop never changes path entries at indices at most the ant's
age (all writes land at `age + 1`). -/
lemma retryLoop_path_lo (n : ℕ) (age : ℕ → ℤ) (exA : ℕ → Exits)
    (exploring : ℕ → Bool) (fuel : ℕ) (st st' : RetrySt)
    (h : retryLoop n age exA exploring fuel st = some st') (i : ℕ) (j : ℤ)
    (hj : j ≤ age i) :
    st'.path i j = st.path i j := by
  induction fuel generalizing st with
  | zero =>
    simp only [retryLoop] at h
    split at h
    · exact absurd h (by simp)
    · cases h; rfl
  | succ fuel ih =>
    simp only [retryLoop] at h
    split at h
    · exact (ih (retryStep age exA exploring st) h).trans
        (retryStep_path_lo age exA exploring st i j hj)
    · cases h; rfl

/-! ### The lifecycle invariant -/

/-- The per-ant lifecycle invariant maintained by the tick: each ant has a
positive life budget, an age strictly below it and never negative, loaded
ants are at least one step away from index 0 of their history, and index 0
of every history is the nest. -/
def Inv (posNest : ℤ × ℤ) (c : Colony) : Prop :=
  ∀ i, i < c.n →
    1 ≤ c.max_life i ∧
    0 ≤ c.age i ∧
    c.age i < (c.max_life i : ℤ) ∧
    (c.is_loaded i = true → 1 ≤ c.age i) ∧
    c.historic_path i 0 = posNest

instance (posNest : ℤ × ℤ) (c : Colony) : Decidable (Inv posNest c) := by
  unfold Inv; infer_instance

/-- The seed invariant: every seed is strictly positive and below the
modulus. -/
def SeedInv (c : Colony) : Prop :=
  ∀ i, i < c.n → 0 < c.seeds i ∧ c.seeds i < 2147483647

instance (c : Colony) : Decidable (SeedInv c) := by
  unfold SeedInv; infer_instance

/-- The return pass preserves the lifecycle invariant and can only unload
ants (never load one); an ant still loaded afterwards is again at least one
step from index 0. -/
lemma return_inv (c : Colony) (posNest : ℤ × ℤ) (food : ℕ)
    (h : Inv posNest c) (i : ℕ) (hi : i < c.n) :
    1 ≤ (return_to_nest c c.is_loaded posNest food).1.max_life i ∧
    0 ≤ (return_to_nest c c.is_loaded posNest food).1.age i ∧
    (return_to_nest c c.is_loaded posNest food).1.age i <
      ((return_to_nest c c.is_loaded posNest food).1.max_life i : ℤ) ∧
    (return_to_nest c c.is_loaded posNest food).1.historic_path i 0 = posNest ∧
    ((return_to_nest c c.is_loaded posNest food).1.is_loaded i = true →
      c.is_loaded i = true ∧
      1 ≤ (return_to_nest c c.is_loaded posNest food).1.age i) := by
  obtain ⟨hml, hage0, hageml, hload, hpath0⟩ := h i hi
  have hmlr : (return_to_nest c c.is_loaded posNest food).1.max_life i =
      c.max_life i := rfl
  have hpr : (return_to_nest c c.is_loaded posNest food).1.historic_path i 0 =
      posNest := hpath0
  by_cases hl : c.is_loaded i = true
  · by_cases hn : c.historic_path i (c.age i - 1) = posNest
    · have hage : (return_to_nest c c.is_loaded posNest food).1.age i = 0 := by
        simp [return_to_nest, hl, hn]
      have hld : (return_to_nest c c.is_loaded posNest food).1.is_loaded i =
          false := by
        simp [return_to_nest, hl, hn]
      refine ⟨hml, by rw [hage], ?_, hpr, fun hc => ?_⟩
      · rw [hage, hmlr]; exact_mod_cast hml
      · rw [hld] at hc; exact absurd hc (by simp)
    · have h1 : 1 ≤ c.age i := hload hl
      have hage : (return_to_nest c c.is_loaded posNest food).1.age i =
          c.age i - 1 := by
        simp [return_to_nest, hl, hn]
      have hld : (return_to_nest c c.is_loaded posNest food).1.is_loaded i =
          c.is_loaded i := by
        simp [return_to_nest, hl, hn]
      refine ⟨hml, by rw [hage]; omega, by rw [hage, hmlr]; omega, hpr,
        fun _ => ⟨hl, ?_⟩⟩
      rw [hage]
      rcases (by omega : c.age i = 1 ∨ 2 ≤ c.age i) with h2 | h2
      · exact absurd (by rw [h2]; simpa using hpath0) hn
      · omega
  · have hl' : c.is_loaded i = false := by simpa using hl
    have hage : (return_to_nest c c.is_loaded posNest food).1.age i =
        c.age i := by
      simp [return_to_nest, hl']
    have hld : (return_to_nest c c.is_loaded posNest food).1.is_loaded i =
        c.is_loaded i := by
      simp [return_to_nest, hl']
    refine ⟨hml, by rw [hage]; omega, by rw [hage, hmlr]; omega, hpr,
      fun hc => ?_⟩
    rw [hld, hl'] at hc
    exact absurd hc (by simp)

/-- The state handed to the explore pass satisfies the lifecycle bounds, and
its loaded ants are outside the `unloaded` index set of the tick. -/
lemma advanceReturn_inv (c : Colony) (posNest : ℤ × ℤ) (food : ℕ)
    (h : Inv posNest c) (i : ℕ) (hi : i < c.n) :
    1 ≤ (advanceReturn c posNest food).1.max_life i ∧
    0 ≤ (advanceReturn c posNest food).1.age i ∧
    (advanceReturn c posNest food).1.age i <
      ((advanceReturn c posNest food).1.max_life i : ℤ) ∧
    (advanceReturn c posNest food).1.historic_path i 0 = posNest ∧
    ((advanceReturn c posNest food).1.is_loaded i = true →
      (!c.is_loaded i) = false ∧ 1 ≤ (advanceReturn c posNest food).1.age i) := by
  unfold advanceReturn
  split
  · have := return_inv c posNest food h i hi
    exact ⟨this.1, this.2.1, this.2.2.1, this.2.2.2.1,
      fun hc => ⟨by simp [(this.2.2.2.2 hc).1], (this.2.2.2.2 hc).2⟩⟩
  · obtain ⟨hml, hage0, hageml, hload, hpath0⟩ := h i hi
    refine ⟨hml, hage0, hageml, hpath0, fun hc => ?_⟩
    have hc' : c.is_loaded i = true := hc
    exact ⟨by simp [hc'], hload hc'⟩

/-- The explore pass preserves the lifecycle invariant, provided the food
cell is not the nest cell and every loaded ant is outside the `unloaded`
index set with an age of at least one. -/
lemma explore_inv (c : Colony) (unloaded : ℕ → Bool) (exits : ℤ × ℤ → Exits)
    (pher : ℤ × ℤ → ℚ) (posFood posNest : ℤ × ℤ) (fuel : ℕ) (c' : Colony)
    (hfp : posFood ≠ posNest)
    (h : explore c unloaded exits pher posFood posNest fuel = some c')
    (H : ∀ i, i < c.n → 1 ≤ c.max_life i ∧ 0 ≤ c.age i ∧
      c.age i < (c.max_life i : ℤ) ∧ c.historic_path i 0 = posNest ∧
      (c.is_loaded i = true → unloaded i = false ∧ 1 ≤ c.age i)) :
    Inv posNest c' := by
  unfold explore at h
  cases hret : retryLoop c.n c.age (exAt c exits)
      (exploringSet c unloaded exits pher) fuel (exploreInit c unloaded) with
  | none => rw [hret] at h; exact absurd h (by simp)
  | some st1 =>
    rw [hret] at h
    have hc' : explorePost c unloaded exits pher posFood posNest st1 = c' :=
      Option.some.inj h
    subst hc'
    intro i hi
    have hi' : i < c.n := hi
    obtain ⟨hml, hage0, hageml, hpath0, hload⟩ := H i hi'
    have hst1p0 : st1.path i 0 = posNest := by
      have := retryLoop_path_lo c.n c.age (exAt c exits)
        (exploringSet c unloaded exits pher) fuel _ st1 hret i 0 hage0
      simpa [exploreInit] using this.trans hpath0
    have hpath2zero : postPath2 c unloaded exits pher st1 i 0 = posNest := by
      unfold postPath2
      split
      · rw [Function.update_noteq (by omega)]
        exact hst1p0
      · exact hst1p0
    simp only [explorePost]
    by_cases hu : unloaded i = true
    · -- an ant of the tick's unloaded index set
      have hnl : c.is_loaded i = false := by
        by_contra hc
        have := (hload (by simpa using hc)).1
        rw [hu] at this
        exact absurd this (by simp)
    -- age after the increment
      have hage2 : postAge2 c unloaded i = c.age i + 1 := by
        simp [postAge2, hu]
      by_cases hd : postDying c unloaded i = true
      · -- the ant dies and resets
        have hage3 : postAge3 c unloaded i = 0 := by simp [postAge3, hd]
        have hpath30 : postPath3 c unloaded exits pher posNest st1 i 0 =
            posNest := by
          simp [postPath3, hd]
        have hnotfood : postLoaded3 c unloaded exits pher posFood posNest st1 i
            = c.is_loaded i := by
          unfold postLoaded3
          rw [hage3, hpath30]
          have hne : ¬(posNest = posFood) := fun hc => hfp hc.symm
          simp [hne]
        refine ⟨hml, ?_, ?_, ?_, ?_⟩
        · rw [hage3]
        · rw [hage3]; exact_mod_cast hml
        · rw [hnotfood, hnl]; intro hc; exact absurd hc (by simp)
        · exact hpath30
      · -- the ant survives with age `c.age i + 1`
        have hd' : postDying c unloaded i = false := by
          simpa using hd
        have hage3 : postAge3 c unloaded i = c.age i + 1 := by
          simp [postAge3, hd', hage2]
        have hne : postAge2 c unloaded i ≠ (c.max_life i : ℤ) := by
          intro hc
          exact hd (by simp [postDying, hc])
        have hpath30 : postPath3 c unloaded exits pher posNest st1 i 0 =
            posNest := by
          simp [postPath3, hd', hpath2zero]
        refine ⟨hml, by omega, ?_, ?_, hpath30⟩
        · rw [hage3]
          rw [hage2] at hne
          omega
        · intro _
          omega
    · -- an ant outside the tick's unloaded index set
      have hu' : unloaded i = false := by simpa using hu
      have hage2 : postAge2 c unloaded i = c.age i := by simp [postAge2, hu']
      have hd' : postDying c unloaded i = false := by
        simp [postDying, hage2]
        omega
      have hage3 : postAge3 c unloaded i = c.age i := by
        simp [postAge3, hd', hage2]
      have hpath30 : postPath3 c unloaded exits pher posNest st1 i 0 =
          posNest := by
        simp [postPath3, hd', hpath2zero]
      have hnofl : postLoaded3 c unloaded exits pher posFood posNest st1 i =
          c.is_loaded i := by
        simp [postLoaded3, hu']
      refine ⟨hml, by omega, by omega, ?_, hpath30⟩
      rw [hnofl, hage3]
      intro hc
      exact (hload hc).2

/-- One full tick preserves the lifecycle invariant whenever the food cell
is distinct from the nest cell. -/
lemma advance_inv (c : Colony) (exits : ℤ × ℤ → Exits) (pher : ℤ × ℤ → ℚ)
    (posFood posNest : ℤ × ℤ) (fuel food : ℕ) (c' : Colony) (food' : ℕ)
    (hfp : posFood ≠ posNest) (h : Inv posNest c)
    (ha : advance c exits pher posFood posNest fuel food = some (c', food')) :
    Inv posNest c' := by
  have hrn : (advanceReturn c posNest food).1.n = c.n := by
    unfold advanceReturn
    split
    · rfl
    · rfl
  unfold advance at ha
  split at ha
  · cases hexp : explore (advanceReturn c posNest food).1
        (fun i => !c.is_loaded i) exits pher posFood posNest fuel with
    | none => rw [hexp] at ha; exact absurd ha (by simp)
    | some c2 =>
      rw [hexp] at ha
      have : c2 = c' := congrArg Prod.fst (Option.some.inj ha)
      subst this
      refine explore_inv _ _ exits pher posFood posNest fuel _ hfp hexp ?_
      intro i hi
      rw [hrn] at hi
      exact advanceReturn_inv c posNest food h i hi
  · have : (advanceReturn c posNest food).1 = c' :=
      congrArg Prod.fst (Option.some.inj ha)
    subst this
    intro i hi
    rw [hrn] at hi
    have := advanceReturn_inv c posNest food h i hi
    exact ⟨this.1, this.2.1, this.2.2.1,
      fun hc => (this.2.2.2.2 hc).2, this.2.2.2.1⟩

/-! ### Seed invariant propagation and creation-time facts -/

/-- The explore pass keeps every seed positive and below the modulus: step
(a) and each retry iteration only ever apply `lcg`. -/
lemma explore_seeds (c : Colony) (unloaded : ℕ → Bool) (exits : ℤ × ℤ → Exits)
    (pher : ℤ × ℤ → ℚ) (posFood posNest : ℤ × ℤ) (fuel : ℕ) (c' : Colony)
    (h : explore c unloaded exits pher posFood posNest fuel = some c')
    (hs : ∀ i, i < c.n → 0 < c.seeds i ∧ c.seeds i < 2147483647) :
    ∀ i, i < c'.n → 0 < c'.seeds i ∧ c'.seeds i < 2147483647 := by
  unfold explore at h
  cases hret : retryLoop c.n c.age (exAt c exits)
      (exploringSet c unloaded exits pher) fuel (exploreInit c unloaded) with
  | none => rw [hret] at h; exact absurd h (by simp)
  | some st1 =>
    rw [hret] at h
    have hc' : explorePost c unloaded exits pher posFood posNest st1 = c' :=
      Option.some.inj h
    subst hc'
    intro i hi
    have hi' : i < c.n := hi
    refine retryLoop_seeds_inv c.n c.age (exAt c exits)
      (exploringSet c unloaded exits pher) fuel _ st1 hret i ?_
    show 0 < exploreSeedsA c.seeds unloaded i ∧
      exploreSeedsA c.seeds unloaded i < 2147483647
    unfold exploreSeedsA
    split
    · exact lcg_pos (hs i hi').1 (hs i hi').2
    · exact hs i hi'

/-- The return pass and its guard do not touch the seeds. -/
lemma advanceReturn_seeds (c : Colony) (posNest : ℤ × ℤ) (food : ℕ) :
    (advanceReturn c posNest food).1.seeds = c.seeds ∧
    (advanceReturn c posNest food).1.n = c.n ∧
    (advanceReturn c posNest food).1.age = (fun i =>
      if c.is_loaded i &&
          decide (c.historic_path i
            (if c.is_loaded i then c.age i - 1 else c.age i) = posNest) then 0
      else if c.is_loaded i then c.age i - 1 else c.age i) ∨
    (advanceReturn c posNest food).1 = c := by
  unfold advanceReturn
  split
  · left
    exact ⟨rfl, rfl, rfl⟩
  · right
    rfl

/-- One full tick keeps every seed positive and below the modulus. -/
lemma advance_seeds (c : Colony) (exits : ℤ × ℤ → Exits) (pher : ℤ × ℤ → ℚ)
    (posFood posNest : ℤ × ℤ) (fuel food : ℕ) (c' : Colony) (food' : ℕ)
    (h : SeedInv c)
    (ha : advance c exits pher posFood posNest fuel food = some (c', food')) :
    SeedInv c' := by
  have hseeds : (advanceReturn c posNest food).1.seeds = c.seeds := by
    unfold advanceReturn
    split
    · rfl
    · rfl
  have hn : (advanceReturn c posNest food).1.n = c.n := by
    unfold advanceReturn
    split
    · rfl
    · rfl
  unfold advance at ha
  split at ha
  · cases hexp : explore (advanceReturn c posNest food).1
        (fun i => !c.is_loaded i) exits pher posFood posNest fuel with
    | none => rw [hexp] at ha; exact absurd ha (by simp)
    | some c2 =>
      rw [hexp] at ha
      have : c2 = c' := congrArg Prod.fst (Option.some.inj ha)
      subst this
      intro i hi
      refine explore_seeds _ _ exits pher posFood posNest fuel _ hexp ?_ i hi
      intro j hj
      rw [hseeds]
      exact h j (hn ▸ hj)
  · have : (advanceReturn c posNest food).1 = c' :=
      congrArg Prod.fst (Option.some.inj ha)
    subst this
    intro i hi
    rw [hseeds]
    exact h i (hn ▸ hi)

/-- `lcg` output is always below the modulus. -/
lemma lcg_lt (s : ℕ) : lcg s < 2147483647 := Nat.mod_lt _ (by norm_num)

/-- A freshly created colony satisfies the seed invariant as soon as the
population is smaller than the modulus. -/
lemma create_seedInv (nbAnts : ℕ) (posInit : ℤ × ℤ) (m : ℕ)
    (hn : nbAnts < 2147483647) : SeedInv (create nbAnts posInit m) := by
  intro i hi
  have hi' : i < nbAnts := hi
  show 0 < lcg (i + 1) ∧ lcg (i + 1) < 2147483647
  exact lcg_pos (by omega) (by omega)

/-- Range of the `max_life` formula: between 75% and 100% of the configured
maximum, and positive whenever the configured maximum is. -/
lemma max_life_bounds (m s : ℕ) (hs : s < 2147483647) :
    3 * m ≤ 4 * (m - m * s / 2147483647 / 4) ∧
    m - m * s / 2147483647 / 4 ≤ m ∧
    (1 ≤ m → 1 ≤ m - m * s / 2147483647 / 4) := by
  have hcancel : 2147483647 * m / 2147483647 = m :=
    Nat.mul_div_cancel_left m (by norm_num)
  have hle : m * s ≤ 2147483647 * m := by
    have := Nat.mul_le_mul_left m (le_of_lt hs)
    omega
  have hqm : m * s / 2147483647 ≤ m := by
    have : m * s / 2147483647 ≤ 2147483647 * m / 2147483647 :=
      Nat.div_le_div_right hle
    rw [hcancel] at this
    exact this
  have hqlt : 1 ≤ m → m * s / 2147483647 < m := by
    intro hm
    refine Nat.div_lt_of_lt_mul ?_
    have := mul_lt_mul_of_pos_left hs (a := m) (by omega)
    omega
  have h44 : 4 * (m * s / 2147483647 / 4) ≤ m * s / 2147483647 := by
    calc 4 * (m * s / 2147483647 / 4) = m * s / 2147483647 / 4 * 4 := by ring
      _ ≤ m * s / 2147483647 := Nat.div_mul_le_self _ _
  refine ⟨by omega, by omega, fun hm => ?_⟩
  have := hqlt hm
  omega

/-- A freshly created colony satisfies the lifecycle invariant as soon as
the configured maximal life is positive. -/
lemma create_inv (nbAnts : ℕ) (posInit : ℤ × ℤ) (m : ℕ) (hm : 1 ≤ m) :
    Inv posInit (create nbAnts posInit m) := by
  intro i hi
  have hb := max_life_bounds m (lcg (i + 1)) (lcg_lt (i + 1))
  have hml : 1 ≤ (create nbAnts posInit m).max_life i := hb.2.2 hm
  refine ⟨hml, le_refl 0, ?_, ?_, ?_⟩
  · show (0 : ℤ) < ((create nbAnts posInit m).max_life i : ℤ)
    exact_mod_cast hml
  · intro hc
    exact absurd hc (by simp [create])
  · show Function.update (fun _ => ((0 : ℤ), (0 : ℤ))) 0 posInit 0 = posInit
    simp

/-! ### Claim theorems -/

/-- C1 counterexample: step (a) of the explore pass
(`self.seeds[unloaded_ants] = ...`, line 88) does not advance the seed of a
loaded ant.  With every ant loaded (the `unloaded` index set empty) and seed
1, the seed after step (a) is still 1 while one recurrence step would give
16807, so seed evolution is not independent of load state. -/
theorem stepA_skips_loaded_ants :
    exploreSeedsA (fun _ => 1) (fun _ => false) 0 = 1 ∧
    lcg 1 = 16807 ∧
    exploreSeedsA (fun _ => 1) (fun _ => false) 0 ≠ lcg 1 := by decide

/-- C1 amended: step (a) of the explore pass advances exactly the seeds of
the ants in the `unloaded` index set by one recurrence step and leaves every
other ant's seed unchanged. -/
theorem stepA_advances_unloaded_only (seeds : ℕ → ℕ) (unloaded : ℕ → Bool)
    (i : ℕ) :
    (unloaded i = true → exploreSeedsA seeds unloaded i = lcg (seeds i)) ∧
    (unloaded i = false → exploreSeedsA seeds unloaded i = seeds i) := by
  constructor <;> intro h <;> simp [exploreSeedsA, h]

/-- Witness for the amended C1 at seed 1: an unloaded ant's seed advances to
16807 and a loaded ant's seed stays 1. -/
theorem stepA_advances_unloaded_only_witness :
    exploreSeedsA (fun _ => 1) (fun _ => true) 0 = lcg 1 ∧
    exploreSeedsA (fun _ => 1) (fun _ => false) 1 = 1 :=
  ⟨(stepA_advances_unloaded_only (fun _ => 1) (fun _ => true) 0).1 rfl,
    (stepA_advances_unloaded_only (fun _ => 1) (fun _ => false) 1).2 rfl⟩

/-- A two-ant retry-loop state: every seed 1, everyone at the origin with no
previous direction and no validated move yet. -/
def c2st : RetrySt where
  seeds := fun _ => 1
  path := fun _ _ => (0, 0)
  dirs := fun _ => DIR_NONE
  valid := fun _ => false

/-- C2 counterexample: one iteration of the retry loop
(`self.seeds[:] = ...`, line 134) changes the seed of ant 0 even though
ant 0 is outside the unresolved subset (it is not an exploring ant at
all). -/
theorem retry_iteration_touches_outside_seed :
    (fun i => decide (i = 1) : ℕ → Bool) 0 = false ∧
    (retryStep (fun _ => 0) (fun _ => ⟨true, true, true, true⟩)
      (fun i => decide (i = 1)) c2st).seeds 0 ≠ c2st.seeds 0 := by decide

/-- C2 amended: each iteration of the retry loop updates the recorded
positions, directions and validity flags only of the unresolved exploring
ants, but advances every ant's seed — loaded ants, following ants and
already-validated exploring ants included — by one recurrence step. -/
theorem retry_iteration_frame (age : ℕ → ℤ) (exA : ℕ → Exits)
    (exploring : ℕ → Bool) (st : RetrySt) (i : ℕ) :
    (retryStep age exA exploring st).seeds i = lcg (st.seeds i) ∧
    ((exploring i && !st.valid i) = false →
      (retryStep age exA exploring st).path i = st.path i ∧
      (retryStep age exA exploring st).dirs i = st.dirs i ∧
      (retryStep age exA exploring st).valid i = st.valid i) :=
  retryStep_frame age exA exploring st i

/-- Witness for the amended C2 on the two-ant state: ant 0 (not exploring)
keeps path, direction and validity but its seed advances to 16807. -/
theorem retry_iteration_frame_witness :
    (retryStep (fun _ => 0) (fun _ => ⟨true, true, true, true⟩)
      (fun i => decide (i = 1)) c2st).seeds 0 = lcg (c2st.seeds 0) ∧
    (retryStep (fun _ => 0) (fun _ => ⟨true, true, true, true⟩)
      (fun i => decide (i = 1)) c2st).path 0 = c2st.path 0 ∧
    (retryStep (fun _ => 0) (fun _ => ⟨true, true, true, true⟩)
      (fun i => decide (i = 1)) c2st).dirs 0 = c2st.dirs 0 := by
  have h := retry_iteration_frame (fun _ => 0)
    (fun _ => ⟨true, true, true, true⟩) (fun i => decide (i = 1)) c2st 0
  exact ⟨h.1, (h.2 (by decide)).1, (h.2 (by decide)).2.1⟩

/-- C5: the exploration probability is the module-level constant
`exploration_coefs = 0`, and since every reachable seed is strictly
positive, the choice value is strictly positive too, so an unloaded ant
takes the exploring branch exactly when its maximal neighbour pheromone
reading is 0 — the probability-threshold disjunct of the branch condition
is unreachable. -/
theorem exploration_threshold_unreachable :
    exploration_coefs = 0 ∧
    ∀ (seeds : ℕ → ℕ) (unloaded : ℕ → Bool) (i : ℕ) (mp : ℚ),
      0 < seeds i → seeds i < 2147483647 →
      (exploringCond (choiceValue (exploreSeedsA seeds unloaded i)) mp ↔
        mp = 0) := by
  refine ⟨rfl, fun seeds unloaded i mp h1 h2 => ?_⟩
  have hpos : 0 < exploreSeedsA seeds unloaded i := by
    unfold exploreSeedsA
    split
    · exact (lcg_pos h1 h2).1
    · exact h1
  have hch : 0 < choiceValue (exploreSeedsA seeds unloaded i) := by
    unfold choiceValue
    exact div_pos (by exact_mod_cast hpos) (by norm_num)
  unfold exploringCond exploration_coefs
  constructor
  · rintro (hc | hc)
    · exact absurd hc (not_le.mpr hch)
    · exact hc
  · exact fun h => Or.inr h

/-- Witness for C5 at seed 1: the branch equivalence holds, exhibited with
maximal pheromone reading 0. -/
theorem exploration_threshold_unreachable_witness :
    exploringCond (choiceValue (exploreSeedsA (fun _ => 1) (fun _ => true) 0))
      0 ↔ (0 : ℚ) = 0 :=
  exploration_threshold_unreachable.2 (fun _ => 1) (fun _ => true) 0 0
    (by decide) (by decide)

/-- C9: after creation with a population below the modulus every seed is
strictly positive (and below the modulus), every tick preserves this, and
one recurrence step maps the invariant range to itself (so zero, the fixed
point, is never reached). -/
theorem seeds_never_zero (nbAnts : ℕ) (posInit : ℤ × ℤ) (m : ℕ)
    (hn : nbAnts < 2147483647) :
    SeedInv (create nbAnts posInit m) ∧
    (∀ (c : Colony) (exits : ℤ × ℤ → Exits) (pher : ℤ × ℤ → ℚ)
      (posFood posNest : ℤ × ℤ) (fuel food : ℕ) (c' : Colony) (food' : ℕ),
      SeedInv c →
      advance c exits pher posFood posNest fuel food = some (c', food') →
      SeedInv c') ∧
    (∀ s : ℕ, 0 < s → s < 2147483647 → 0 < lcg s ∧ lcg s < 2147483647) :=
  ⟨create_seedInv nbAnts posInit m hn,
    fun c exits pher posFood posNest fuel food c' food' h ha =>
      advance_seeds c exits pher posFood posNest fuel food c' food' h ha,
    fun _ h1 h2 => lcg_pos h1 h2⟩

/-- Witness for C9: seed of ant 2 in a fresh 5-ant colony is in the
invariant range. -/
theorem seeds_never_zero_witness :
    0 < (create 5 (0, 0) 500).seeds 2 ∧
    (create 5 (0, 0) 500).seeds 2 < 2147483647 :=
  (seeds_never_zero 5 (0, 0) 500 (by decide)).1 2 (by decide)

/-- C8: a fresh colony satisfies the lifecycle invariant, every tick with
the food cell distinct from the nest cell preserves it, and the invariant
bounds every ant's age by `0 ≤ age ≤ max_life`: the unloaded-ant age
increment followed by the death reset keeps ages at most `max_life`, and
the loaded-ant decrement never drives an age below 0 (a loaded ant at age 0
is at the nest and has unloaded). -/
theorem age_in_bounds (nbAnts : ℕ) (posNest posFood : ℤ × ℤ) (m : ℕ)
    (hm : 1 ≤ m) (hfp : posFood ≠ posNest) :
    Inv posNest (create nbAnts posNest m) ∧
    (∀ (c : Colony) (exits : ℤ × ℤ → Exits) (pher : ℤ × ℤ → ℚ)
      (fuel food : ℕ) (c' : Colony) (food' : ℕ), Inv posNest c →
      advance c exits pher posFood posNest fuel food = some (c', food') →
      Inv posNest c') ∧
    (∀ c : Colony, Inv posNest c → ∀ i, i < c.n →
      0 ≤ c.age i ∧ c.age i ≤ (c.max_life i : ℤ)) := by
  refine ⟨create_inv nbAnts posNest m hm,
    fun c exits pher fuel food c' food' h ha =>
      advance_inv c exits pher posFood posNest fuel food c' food' hfp h ha,
    fun c h i hi => ?_⟩
  obtain ⟨h1, h2, h3, h4, h5⟩ := h i hi
  exact ⟨h2, le_of_lt h3⟩

/-- Witness for C8: age bounds hold for the single ant of a fresh colony
with configured maximal life 2. -/
theorem age_in_bounds_witness :
    0 ≤ (create 1 (0, 0) 2).age 0 ∧
    (create 1 (0, 0) 2).age 0 ≤ ((create 1 (0, 0) 2).max_life 0 : ℤ) := by
  have h := age_in_bounds 1 (0, 0) (3, 4) 2 (by decide) (by decide)
  exact h.2.2 _ h.1 0 (by decide)

/-- C10: `create` gives every ant the nest as recorded position at index 0
(also its current position, the age being 0), an unloaded state, direction
NONE, seed `(16807 * (i+1)) mod 2147483647`, and a `max_life` equal to
`maxLifeConfig - floor(maxLifeConfig * seed / 2147483647 / 4)`, which lies
between 75% and 100% of the configured maximum; being a plain function of
its three arguments, the construction is deterministic. -/
theorem create_fields (nbAnts : ℕ) (posInit : ℤ × ℤ) (m : ℕ) (i : ℕ)
    (_hi : i < nbAnts) :
    (create nbAnts posInit m).historic_path i 0 = posInit ∧
    (create nbAnts posInit m).age i = 0 ∧
    (create nbAnts posInit m).is_loaded i = false ∧
    (create nbAnts posInit m).directions i = DIR_NONE ∧
    (create nbAnts posInit m).seeds i = 16807 * (i + 1) % 2147483647 ∧
    (create nbAnts posInit m).max_life i =
      m - m * (create nbAnts posInit m).seeds i / 2147483647 / 4 ∧
    3 * m ≤ 4 * (create nbAnts posInit m).max_life i ∧
    (create nbAnts posInit m).max_life i ≤ m := by
  have hb := max_life_bounds m (lcg (i + 1)) (lcg_lt (i + 1))
  exact ⟨by simp [create], rfl, rfl, rfl, rfl, rfl, hb.1, hb.2.1⟩

/-- Witness for C10 on a 3-ant colony with maximal life 500. -/
theorem create_fields_witness :
    (create 3 (2, 5) 500).historic_path 0 0 = (2, 5) ∧
    (create 3 (2, 5) 500).age 0 = 0 ∧
    (create 3 (2, 5) 500).is_loaded 0 = false ∧
    (create 3 (2, 5) 500).directions 0 = DIR_NONE ∧
    (create 3 (2, 5) 500).seeds 0 = 16807 * (0 + 1) % 2147483647 ∧
    (create 3 (2, 5) 500).max_life 0 =
      500 - 500 * (create 3 (2, 5) 500).seeds 0 / 2147483647 / 4 ∧
    3 * 500 ≤ 4 * (create 3 (2, 5) 500).max_life 0 ∧
    (create 3 (2, 5) 500).max_life 0 ≤ 500 :=
  create_fields 3 (2, 5) 500 0 (by decide)

/-- C6: in the return pass every loaded ant's age drops by exactly one;
the loaded ants whose recorded position at the new age is the nest unload
and reset to age 0, the others stay loaded at the decremented age; the food
counter grows by exactly the number of arrivals; unloaded ants are
untouched and no path history, direction or seed changes. -/
theorem return_pass_spec (c : Colony) (posNest : ℤ × ℤ) (food : ℕ) :
    (∀ i, c.is_loaded i = true →
      c.historic_path i (c.age i - 1) = posNest →
      (return_to_nest c c.is_loaded posNest food).1.is_loaded i = false ∧
      (return_to_nest c c.is_loaded posNest food).1.age i = 0) ∧
    (∀ i, c.is_loaded i = true →
      c.historic_path i (c.age i - 1) ≠ posNest →
      (return_to_nest c c.is_loaded posNest food).1.is_loaded i = true ∧
      (return_to_nest c c.is_loaded posNest food).1.age i = c.age i - 1) ∧
    (∀ i, c.is_loaded i = false →
      (return_to_nest c c.is_loaded posNest food).1.is_loaded i = false ∧
      (return_to_nest c c.is_loaded posNest food).1.age i = c.age i) ∧
    (return_to_nest c c.is_loaded posNest food).2 =
      food + ((List.range c.n).filter fun i =>
        c.is_loaded i &&
          decide (c.historic_path i (c.age i - 1) = posNest)).length ∧
    (return_to_nest c c.is_loaded posNest food).1.historic_path =
      c.historic_path ∧
    (return_to_nest c c.is_loaded posNest food).1.directions = c.directions ∧
    (return_to_nest c c.is_loaded posNest food).1.seeds = c.seeds := by
  refine ⟨?_, ?_, ?_, ?_, rfl, rfl, rfl⟩
  · intro i hl hn
    constructor <;> simp [return_to_nest, hl, hn]
  · intro i hl hn
    constructor <;> simp [return_to_nest, hl, hn]
  · intro i hl
    constructor <;> simp [return_to_nest, hl]
  · show food + ((List.range c.n).filter fun i =>
        c.is_loaded i && decide (c.historic_path i
          (if c.is_loaded i then c.age i - 1 else c.age i) = posNest)).length =
      food + ((List.range c.n).filter fun i =>
        c.is_loaded i &&
          decide (c.historic_path i (c.age i - 1) = posNest)).length
    have hpred : (fun i => c.is_loaded i && decide (c.historic_path i
        (if c.is_loaded i then c.age i - 1 else c.age i) = posNest)) =
        (fun i => c.is_loaded i &&
          decide (c.historic_path i (c.age i - 1) = posNest)) := by
      funext i
      by_cases hl : c.is_loaded i = true
      · simp [hl]
      · have hl' : c.is_loaded i = false := by simpa using hl
        simp [hl']
    rw [hpred]

/-- The two-ant colony witnessing the return pass: both ants are loaded,
ant 0 is one step from the nest `(7, 7)` and ant 1 three steps into a path
that never meets the nest. -/
def c6c : Colony where
  n := 2
  maxLifeCfg := 10
  seeds := fun _ => 1
  is_loaded := fun _ => true
  max_life := fun _ => 10
  age := fun i => if i = 0 then 1 else 3
  historic_path := fun i j => if i = 0 ∧ j = 0 then (7, 7) else (1, 1)
  directions := fun _ => DIR_SOUTH

/-- Witness for C6 on `c6c`: ant 0 arrives (unloads at age 0), ant 1 stays
loaded at age 2, and the food counter 4 becomes 5. -/
theorem return_pass_spec_witness :
    (return_to_nest c6c c6c.is_loaded (7, 7) 4).1.is_loaded 0 = false ∧
    (return_to_nest c6c c6c.is_loaded (7, 7) 4).1.age 0 = 0 ∧
    (return_to_nest c6c c6c.is_loaded (7, 7) 4).1.is_loaded 1 = true ∧
    (return_to_nest c6c c6c.is_loaded (7, 7) 4).1.age 1 = c6c.age 1 - 1 ∧
    (return_to_nest c6c c6c.is_loaded (7, 7) 4).2 = 4 +
      ((List.range c6c.n).filter fun i => c6c.is_loaded i &&
        decide (c6c.historic_path i (c6c.age i - 1) = (7, 7))).length := by
  have h := return_pass_spec c6c (7, 7) 4
  exact ⟨(h.1 0 (by decide) (by decide)).1, (h.1 0 (by decide) (by decide)).2,
    (h.2.1 1 (by decide) (by decide)).1, (h.2.1 1 (by decide) (by decide)).2,
    h.2.2.2.1⟩

/-- Each of the four neighbour reads is at most the computed maximum. -/
lemma pher_le_maxPher (exits : ℤ × ℤ → Exits) (pher : ℤ × ℤ → ℚ)
    (p : ℤ × ℤ) :
    northPher exits pher p ≤ maxPher exits pher p ∧
    eastPher exits pher p ≤ maxPher exits pher p ∧
    southPher exits pher p ≤ maxPher exits pher p ∧
    westPher exits pher p ≤ maxPher exits pher p := by
  unfold maxPher
  refine ⟨?_, ?_, ?_, ?_⟩
  · exact le_max_of_le_left (le_max_of_le_left (le_max_left _ _))
  · exact le_max_of_le_left (le_max_of_le_left (le_max_right _ _))
  · exact le_max_of_le_left (le_max_right _ _)
  · exact le_max_right _ _

/-- C4: for an unloaded ant, with the choice value drawn from the step-(a)
seed, the exploring branch is taken exactly when the choice value is at
most `exploration_coefs` or the maximal neighbour pheromone reading is 0,
and the following branch exactly otherwise; a closed exit's pheromone
reading is forced to 0, so for a following ant a closed direction never
attains the (positive) maximum the ant moves towards. -/
theorem branch_selection (c : Colony) (unloaded : ℕ → Bool)
    (exits : ℤ × ℤ → Exits) (pher : ℤ × ℤ → ℚ) (i : ℕ)
    (hu : unloaded i = true) (hpher : ∀ q, 0 ≤ pher q) :
    (exploringSet c unloaded exits pher i = true ↔
      choiceValue (exploreSeedsA c.seeds unloaded i) ≤ exploration_coefs ∨
      maxPher exits pher (antPos c i) = 0) ∧
    (followingSet c unloaded exits pher i = true ↔
      ¬(exploringSet c unloaded exits pher i = true)) ∧
    ((exits (antPos c i)).north = false →
      northPher exits pher (antPos c i) = 0) ∧
    ((exits (antPos c i)).east = false →
      eastPher exits pher (antPos c i) = 0) ∧
    ((exits (antPos c i)).south = false →
      southPher exits pher (antPos c i) = 0) ∧
    ((exits (antPos c i)).west = false →
      westPher exits pher (antPos c i) = 0) ∧
    (followingSet c unloaded exits pher i = true →
      ((exits (antPos c i)).north = false →
        northPher exits pher (antPos c i) ≠ maxPher exits pher (antPos c i)) ∧
      ((exits (antPos c i)).east = false →
        eastPher exits pher (antPos c i) ≠ maxPher exits pher (antPos c i)) ∧
      ((exits (antPos c i)).south = false →
        southPher exits pher (antPos c i) ≠ maxPher exits pher (antPos c i)) ∧
      ((exits (antPos c i)).west = false →
        westPher exits pher (antPos c i) ≠ maxPher exits pher (antPos c i))) := by
  have hN : 0 ≤ northPher exits pher (antPos c i) := by
    unfold northPher
    split
    · exact hpher _
    · exact le_refl 0
  have hmp0 : 0 ≤ maxPher exits pher (antPos c i) :=
    le_trans hN (pher_le_maxPher exits pher (antPos c i)).1
  have hmppos : followingSet c unloaded exits pher i = true →
      0 < maxPher exits pher (antPos c i) := by
    intro hf
    have : followingCond (choiceValue (exploreSeedsA c.seeds unloaded i))
        (maxPher exits pher (antPos c i)) := by
      have := hf
      unfold followingSet at this
      rw [hu] at this
      simpa using this
    exact this.2
  refine ⟨?_, ?_, ?_, ?_, ?_, ?_, ?_⟩
  · unfold exploringSet exploringCond
    rw [hu]
    simp
  · unfold followingSet exploringSet followingCond exploringCond
    rw [hu]
    simp only [Bool.true_and, decide_eq_true_eq, not_or]
    constructor
    · rintro ⟨a, b⟩
      push_neg
      exact ⟨a, ne_of_gt b⟩
    · intro hb
      push_neg at hb
      exact ⟨hb.1, lt_of_le_of_ne hmp0 (Ne.symm hb.2)⟩
  · intro h; simp [northPher, h]
  · intro h; simp [eastPher, h]
  · intro h; simp [southPher, h]
  · intro h; simp [westPher, h]
  · intro hf
    have hpos := hmppos hf
    refine ⟨fun h => ?_, fun h => ?_, fun h => ?_, fun h => ?_⟩ <;>
      simp only [northPher, eastPher, southPher, westPher, h, Bool.false_eq_true,
        if_false] <;>
      exact ne_of_lt hpos

/-- The colony used to witness the branch selection: one unloaded ant at
`(3, 3)` whose cell has only a north exit, in a constant pheromone field of
level 2. -/
def c4c : Colony where
  n := 1
  maxLifeCfg := 10
  seeds := fun _ => 1
  is_loaded := fun _ => false
  max_life := fun _ => 10
  age := fun _ => 0
  historic_path := fun _ _ => (3, 3)
  directions := fun _ => DIR_NONE

/-- The exits of the witness maze for C4: only north is open anywhere. -/
def c4exits : ℤ × ℤ → Exits := fun _ => ⟨true, false, false, false⟩

/-- The constant level-2 pheromone field of the C4 witness. -/
def c4pher : ℤ × ℤ → ℚ := fun _ => 2

/-- Witness for C4 on `c4c`: the following branch is the complement of the
exploring branch and the closed east exit reads pheromone 0. -/
theorem branch_selection_witness :
    (followingSet c4c (fun _ => true) c4exits c4pher 0 = true ↔
      ¬(exploringSet c4c (fun _ => true) c4exits c4pher 0 = true)) ∧
    ((c4exits (antPos c4c 0)).east = false →
      eastPher c4exits c4pher (antPos c4c 0) = 0) := by
  have h := branch_selection c4c (fun _ => true) c4exits c4pher 0 rfl
    (fun q => by norm_num [c4pher])
  exact ⟨h.2.1, h.2.2.2.1⟩

/-- The drawn direction points at an open exit of the cell. -/
def dirOpen (e : Exits) (dir : ℤ) : Prop :=
  (dir = DIR_NORTH ∧ e.north = true) ∨ (dir = DIR_EAST ∧ e.east = true) ∨
  (dir = DIR_WEST ∧ e.west = true) ∨ (dir = DIR_SOUTH ∧ e.south = true)

instance (e : Exits) (dir : ℤ) : Decidable (dirOpen e dir) := by
  unfold dirOpen; infer_instance

/-- The tentative move of the retry loop leaves the cell exactly when the
drawn direction's exit is open. -/
lemma stepNewPos_ne_iff (p : ℤ × ℤ) (e : Exits) (dir : ℤ) :
    stepNewPos p e dir ≠ p ↔ dirOpen e dir := by
  by_cases h0 : dir = DIR_NORTH
  · subst h0
    cases hn : e.north <;>
      simp [stepNewPos, dirOpen, DIR_NORTH, DIR_EAST, DIR_WEST, DIR_SOUTH,
        hn, Prod.ext_iff]
  · by_cases h1 : dir = DIR_EAST
    · subst h1
      cases he : e.east <;>
        simp [stepNewPos, dirOpen, DIR_NORTH, DIR_EAST, DIR_WEST, DIR_SOUTH,
          he, Prod.ext_iff]
    · by_cases h2 : dir = DIR_WEST
      · subst h2
        cases hw : e.west <;>
          simp [stepNewPos, dirOpen, DIR_NORTH, DIR_EAST, DIR_WEST, DIR_SOUTH,
            hw, Prod.ext_iff]
      · by_cases h3 : dir = DIR_SOUTH
        · subst h3
          cases hs : e.south <;>
            simp [stepNewPos, dirOpen, DIR_NORTH, DIR_EAST, DIR_WEST,
              DIR_SOUTH, hs, Prod.ext_iff]
        · simp [stepNewPos, dirOpen, h0, h1, h2, h3]

/-- C7: a move the retry loop validates for an unresolved exploring ant
satisfies the validity predicate — the flag becomes true exactly when the
drawn direction's exit is open (equivalently, the tentative position
differs from the current one) and the direction is not the reverse
(`3 - previous`) of the previous one unless the cell has exactly one open
exit; when validated, the committed position at `age + 1` and the committed
direction are the tentative ones. -/
theorem retry_move_validity (age : ℕ → ℤ) (exA : ℕ → Exits)
    (exploring : ℕ → Bool) (st : RetrySt) (i : ℕ)
    (hex : exploring i = true) (hval : st.valid i = false) :
    ((retryStep age exA exploring st).valid i = true ↔
      dirOpen (exA i) (drawnDir (lcg (st.seeds i))) ∧
        (drawnDir (lcg (st.seeds i)) ≠ 3 - st.dirs i ∨ nbExits (exA i) = 1)) ∧
    (stepNewPos (st.path i (age i)) (exA i) (drawnDir (lcg (st.seeds i))) ≠
        st.path i (age i) ↔
      dirOpen (exA i) (drawnDir (lcg (st.seeds i)))) ∧
    ((retryStep age exA exploring st).valid i = true →
      (retryStep age exA exploring st).path i (age i + 1) =
        stepNewPos (st.path i (age i)) (exA i) (drawnDir (lcg (st.seeds i))) ∧
      (retryStep age exA exploring st).dirs i =
        drawnDir (lcg (st.seeds i))) := by
  have hunres : (exploring i && !st.valid i) = true := by simp [hex, hval]
  have hne := stepNewPos_ne_iff (st.path i (age i)) (exA i)
    (drawnDir (lcg (st.seeds i)))
  have hvalid : (retryStep age exA exploring st).valid i =
      decide (moveOk (st.path i (age i))
        (stepNewPos (st.path i (age i)) (exA i) (drawnDir (lcg (st.seeds i))))
        (drawnDir (lcg (st.seeds i))) (st.dirs i) (nbExits (exA i))) := by
    simp [retryStep, hex, hval]
  refine ⟨?_, hne, fun hv => ?_⟩
  · rw [hvalid]
    simp only [decide_eq_true_eq]
    unfold moveOk
    rw [hne]
  · have hok : decide (moveOk (st.path i (age i))
        (stepNewPos (st.path i (age i)) (exA i) (drawnDir (lcg (st.seeds i))))
        (drawnDir (lcg (st.seeds i))) (st.dirs i) (nbExits (exA i))) = true := by
      rw [← hvalid]; exact hv
    have hokP : moveOk (st.path i (age i))
        (stepNewPos (st.path i (age i)) (exA i) (drawnDir (lcg (st.seeds i))))
        (drawnDir (lcg (st.seeds i))) (st.dirs i) (nbExits (exA i)) :=
      of_decide_eq_true hok
    constructor
    · show (retryStep age exA exploring st).path i (age i + 1) = _
      simp [retryStep, hex, hval, hokP]
    · show (retryStep age exA exploring st).dirs i = _
      simp [retryStep, hex, hval, hokP]

/-- The one-ant retry-loop state of the C7 witness: seed 1, previous
direction North, sitting at the origin of a dead-end cell. -/
def c7st : RetrySt where
  seeds := fun _ => 1
  path := fun _ _ => (0, 0)
  dirs := fun _ => DIR_NORTH
  valid := fun _ => false

/-- The dead-end cell of the C7 witness: only the south exit is open. -/
def c7exits : ℕ → Exits := fun _ => ⟨false, false, true, false⟩

/-- Witness for C7, the dead-end scenario of the spec: the ant just moved
north, its cell has only a south exit, the drawn direction
(`lcg 1 mod 4 = 3`, South) is the exact reverse of North, and the move is
nevertheless validated and committed one row down. -/
theorem retry_move_validity_witness :
    (retryStep (fun _ => 0) c7exits (fun _ => true) c7st).valid 0 = true ∧
    (retryStep (fun _ => 0) c7exits (fun _ => true) c7st).path 0
        ((fun _ => (0 : ℤ)) 0 + 1) =
      stepNewPos (c7st.path 0 ((fun _ => (0 : ℤ)) 0)) (c7exits 0)
        (drawnDir (lcg (c7st.seeds 0))) := by
  have h := retry_move_validity (fun _ => 0) c7exits (fun _ => true) c7st 0
    rfl rfl
  have hv : (retryStep (fun _ => 0) c7exits (fun _ => true) c7st).valid 0 =
      true := h.1.mpr (by decide)
  exact ⟨hv, (h.2.2 hv).1⟩

/-- C3: a following ant's recorded position at `age + 1` after the explore
pass is its current position shifted simultaneously by every direction
whose neighbour pheromone reading attains the maximum of the four readings:
column +1 for a tying east, column -1 for a tying west, row -1 for a tying
north, row +1 for a tying south — so equal maximal east and north readings
produce a net diagonal step, and tying opposite directions cancel to a null
move. -/
theorem follow_move (c : Colony) (unloaded : ℕ → Bool) (exits : ℤ × ℤ → Exits)
    (pher : ℤ × ℤ → ℚ) (posFood posNest : ℤ × ℤ) (fuel : ℕ) (c' : Colony)
    (i : ℕ)
    (h : explore c unloaded exits pher posFood posNest fuel = some c')
    (hu : unloaded i = true)
    (hage : 0 ≤ c.age i)
    (hfol : followingCond (choiceValue (exploreSeedsA c.seeds unloaded i))
      (maxPher exits pher (antPos c i))) :
    c'.historic_path i (c.age i + 1) =
      ((antPos c i).1 -
          (if northPher exits pher (antPos c i) =
            maxPher exits pher (antPos c i) then 1 else 0) +
          (if southPher exits pher (antPos c i) =
            maxPher exits pher (antPos c i) then 1 else 0),
        (antPos c i).2 +
          (if eastPher exits pher (antPos c i) =
            maxPher exits pher (antPos c i) then 1 else 0) -
          (if westPher exits pher (antPos c i) =
            maxPher exits pher (antPos c i) then 1 else 0)) := by
  have hnotex : ¬ exploringCond
      (choiceValue (exploreSeedsA c.seeds unloaded i))
      (maxPher exits pher (antPos c i)) := by
    unfold exploringCond
    push_neg
    exact ⟨hfol.1, ne_of_gt hfol.2⟩
  have hexf : exploringSet c unloaded exits pher i = false := by
    simp [exploringSet, hnotex]
  have hfs : followingSet c unloaded exits pher i = true := by
    simp [followingSet, hu, hfol]
  unfold explore at h
  cases hret : retryLoop c.n c.age (exAt c exits)
      (exploringSet c unloaded exits pher) fuel (exploreInit c unloaded) with
  | none => rw [hret] at h; exact absurd h (by simp)
  | some st1 =>
    rw [hret] at h
    have hc' : explorePost c unloaded exits pher posFood posNest st1 = c' :=
      Option.some.inj h
    subst hc'
    have hfr : st1.path i = c.historic_path i :=
      (retryLoop_frame c.n c.age (exAt c exits)
        (exploringSet c unloaded exits pher) fuel _ st1 hret i hexf).1
    have hpp2 : postPath2 c unloaded exits pher st1 i (c.age i + 1) =
        followNewPos (st1.path i (c.age i))
          (northPher exits pher (antPos c i)) (eastPher exits pher (antPos c i))
          (southPher exits pher (antPos c i)) (westPher exits pher (antPos c i))
          (maxPher exits pher (antPos c i)) := by
      unfold postPath2
      rw [if_pos hfs]
      exact Function.update_same _ _ _
    show postPath3 c unloaded exits pher posNest st1 i (c.age i + 1) = _
    unfold postPath3
    split
    · rw [Function.update_noteq (by omega), hpp2, hfr]
      rfl
    · rw [hpp2, hfr]
      rfl

/-- The one-ant colony of the C3 witness, sitting at `(5, 5)` with age 0. -/
def c3c : Colony where
  n := 1
  maxLifeCfg := 100
  seeds := fun _ => 1
  is_loaded := fun _ => false
  max_life := fun _ => 100
  age := fun _ => 0
  historic_path := fun _ _ => (5, 5)
  directions := fun _ => DIR_NONE

/-- The maze of the C3 witness: north and east exits open everywhere, south
and west closed. -/
def c3exits : ℤ × ℤ → Exits := fun _ => ⟨true, true, false, false⟩

/-- The constant level-5 pheromone field of the C3 witness: both open exits
read the maximal level 5, the closed ones read 0. -/
def c3pher : ℤ × ℤ → ℚ := fun _ => 5

/-- Witness for C3, the tie-breaking scenario of the spec: with east and
north both reading the maximal level 5, the following ant at `(5, 5)` moves
diagonally to `(4, 6)` — one row north and one column east at once. -/
theorem follow_move_witness :
    ((explore c3c (fun _ => true) c3exits c3pher (9, 9) (0, 0) 0).map
      (fun d => d.historic_path 0 (c3c.age 0 + 1))).getD (0, 0) = (4, 6) := by
  have hreads : northPher c3exits c3pher (antPos c3c 0) = 5 ∧
      eastPher c3exits c3pher (antPos c3c 0) = 5 ∧
      southPher c3exits c3pher (antPos c3c 0) = 0 ∧
      westPher c3exits c3pher (antPos c3c 0) = 0 := by
    refine ⟨?_, ?_, ?_, ?_⟩ <;>
      simp [northPher, eastPher, southPher, westPher, c3exits, c3pher]
  have hmax : maxPher c3exits c3pher (antPos c3c 0) = 5 := by
    unfold maxPher
    rw [hreads.1, hreads.2.1, hreads.2.2.1, hreads.2.2.2]
    norm_num
  have hfolw : followingCond
      (choiceValue (exploreSeedsA c3c.seeds (fun _ => true) 0))
      (maxPher c3exits c3pher (antPos c3c 0)) := by
    constructor
    · show exploration_coefs <
        choiceValue (exploreSeedsA c3c.seeds (fun _ => true) 0)
      norm_num [exploration_coefs, choiceValue, exploreSeedsA, c3c, lcg]
    · rw [hmax]
      norm_num
  have hexf0 : exploringSet c3c (fun _ => true) c3exits c3pher 0 = false := by
    have : ¬ exploringCond
        (choiceValue (exploreSeedsA c3c.seeds (fun _ => true) 0))
        (maxPher c3exits c3pher (antPos c3c 0)) := by
      unfold exploringCond
      push_neg
      exact ⟨hfolw.1, ne_of_gt hfolw.2⟩
    simp [exploringSet, this]
  have hrange : List.range c3c.n = [0] := by decide
  have hany : anyUnresolved c3c.n
      (exploringSet c3c (fun _ => true) c3exits c3pher)
      (exploreInit c3c (fun _ => true)) = false := by
    unfold anyUnresolved
    rw [hrange]
    simp [hexf0]
  have hloop : retryLoop c3c.n c3c.age (exAt c3c c3exits)
      (exploringSet c3c (fun _ => true) c3exits c3pher) 0
      (exploreInit c3c (fun _ => true)) =
      some (exploreInit c3c (fun _ => true)) := by
    unfold retryLoop
    rw [hany]
    simp
  have hE : explore c3c (fun _ => true) c3exits c3pher (9, 9) (0, 0) 0 =
      some (explorePost c3c (fun _ => true) c3exits c3pher (9, 9) (0, 0)
        (exploreInit c3c (fun _ => true))) := by
    unfold explore
    rw [hloop]
  have h := follow_move c3c (fun _ => true) c3exits c3pher (9, 9) (0, 0) 0 _ 0
    hE rfl (le_refl 0) hfolw
  rw [hE]
  simp only [Option.map_some', Option.getD_some]
  rw [h, hreads.1, hreads.2.1, hreads.2.2.1, hreads.2.2.2, hmax]
  norm_num [antPos, c3c]

end Ants
